import Mathlib

/-!
Shallow embedding of the `internal/crypto` package of the `Bewinxed/auth`
repository (Go), together with proofs of the specified properties.

Bytes are modelled as `List Nat` (each entry a byte value), Go strings as
Lean `String`, Go `time.Time` as `Int` (a zero time is `Option.none`),
and fallible Go functions as `Except`/`Option` returns.  Cryptographic
primitives that live outside the repository (AES-GCM, HKDF-SHA256,
Ed25519, base58, `net/url` parsing) are abstracted as fields of a
primitive-bundle structure, so every theorem quantifies over them;
witnesses instantiate them with concrete executable functions.
-/

/-- One base64 URL-safe digit (Go `base64.RawURLEncoding` alphabet:
`A`-`Z`, `a`-`z`, `0`-`9`, `-`, `_`); `none` for characters outside the
alphabet. -/
def base64UrlDigit (c : Char) : Option Nat :=
  if 'A' ≤ c ∧ c ≤ 'Z' then some (c.toNat - 65)
  else if 'a' ≤ c ∧ c ≤ 'z' then some (c.toNat - 97 + 26)
  else if '0' ≤ c ∧ c ≤ '9' then some (c.toNat - 48 + 52)
  else if c = '-' then some 62
  else if c = '_' then some 63
  else none

/-- Regroup a list of 6-bit values into 8-bit bytes, big-endian, as Go's
unpadded base64 decoder does: a trailing group of one digit is invalid,
trailing groups of two or three digits contribute one or two bytes. -/
def base64Regroup : List Nat → Option (List Nat)
  | [] => some []
  | [_] => none
  | [a, b] => some [a * 4 + b / 16]
  | [a, b, c] => some [a * 4 + b / 16, b % 16 * 16 + c / 4]
  | a :: b :: c :: d :: rest =>
    match base64Regroup rest with
    | none => none
    | some tail => some ((a * 4 + b / 16) :: (b % 16 * 16 + c / 4) :: (c % 4 * 64 + d) :: tail)

/-- Go `base64.RawURLEncoding.DecodeString`: decode an unpadded URL-safe
base64 string to bytes; `none` on a character outside the alphabet or an
impossible length. -/
def base64UrlDecode (s : String) : Option (List Nat) :=
  match s.data.mapM base64UrlDigit with
  | none => none
  | some digits => base64Regroup digits

/-- The failure cases of `deriveSymmetricKey` (Go returns them as wrapped
`error` values: a base64 decode error, or the "is not 256 bits" error). -/
inductive DeriveError
  | invalidBase64
  | wrongKeySize
deriving DecidableEq

/-- External cryptographic primitives used by the `crypto` package but
implemented outside the repository (Go standard library /
`golang.org/x/crypto`): HKDF-SHA256 (as the 32-byte read from
`hkdf.New(sha256.New, ikm, nil, info)`), and AES-GCM seal/open
(key, nonce, data). -/
structure CryptoPrims where
  hkdfSha256 : List Nat → String → List Nat
  aesGCMSeal : List Nat → List Nat → List Nat → List Nat
  aesGCMOpen : List Nat → List Nat → List Nat → Option (List Nat)

/-- Embedding of `deriveSymmetricKey` (crypto.go:125-151): base64url-decode
the key material, require exactly 256 bits, then derive 256 bits by
HKDF-SHA256 keyed by the decoded material with the record id as info. -/
def deriveSymmetricKey (p : CryptoPrims) (id keyID keyBase64URL : String) :
    Except DeriveError (List Nat) :=
  match base64UrlDecode keyBase64URL with
  | none => .error .invalidBase64
  | some hkdfKey =>
    if hkdfKey.length ≠ 256 / 8 then .error .wrongKeySize
    else .ok (p.hkdfSha256 hkdfKey id)

/-- Embedding of the `EncryptedString` struct (crypto.go:62-67). -/
structure EncryptedString where
  KeyID : String
  Algorithm : String
  Data : List Nat
  Nonce : List Nat
deriving DecidableEq

/-- Embedding of `EncryptedString.IsValid` (crypto.go:69-71). -/
def EncryptedString.IsValid (es : EncryptedString) : Bool :=
  es.KeyID != "" && !es.Data.isEmpty && !es.Nonce.isEmpty && es.Algorithm == "aes-gcm-hkdf"

/-- Embedding of `EncryptedString.ShouldReEncrypt` (crypto.go:74-76). -/
def EncryptedString.ShouldReEncrypt (es : EncryptedString) (encryptionKeyID : String) : Bool :=
  es.KeyID != encryptionKeyID

/-- Go map index expression `m[k]` for `map[string]string`: the value of
the first matching key, or the zero value `""` when the key is absent. -/
def goMapLookup (m : List (String × String)) (k : String) : String :=
  match m.find? (fun kv => kv.1 == k) with
  | some kv => kv.2
  | none => ""

/-- The failure cases of `EncryptedString.Decrypt` (Go returns them as
`error` values: the "does not exist" message, a derivation error, or an
AES-GCM open failure). -/
inductive DecryptError
  | unknownKey (keyID : String)
  | derive (e : DeriveError)
  | openFailed
deriving DecidableEq

/-- Embedding of `EncryptedString.Decrypt` (crypto.go:78-99): look the key
id up in the map, fail when the looked-up value is the empty string,
derive the symmetric key, then AES-GCM open. -/
def EncryptedString.Decrypt (es : EncryptedString) (p : CryptoPrims) (id : String)
    (decryptionKeys : List (String × String)) : Except DecryptError (List Nat) :=
  let decryptionKey := goMapLookup decryptionKeys es.KeyID
  if decryptionKey = "" then .error (.unknownKey es.KeyID)
  else
    match deriveSymmetricKey p id es.KeyID decryptionKey with
    | .error e => .error (.derive e)
    | .ok key =>
      match p.aesGCMOpen key es.Nonce es.Data with
      | none => .error .openFailed
      | some decrypted => .ok decrypted

/-- Embedding of `NewEncryptedString` (crypto.go:153-172).  The Go code
draws the 12-byte nonce from `crypto/rand`; the draw is modelled by
passing the drawn nonce as the last argument. -/
def NewEncryptedString (p : CryptoPrims) (id : String) (data : List Nat)
    (keyID : String) (keyBase64URL : String) (nonce : List Nat) :
    Except DeriveError EncryptedString :=
  match deriveSymmetricKey p id keyID keyBase64URL with
  | .error e => .error e
  | .ok key =>
    .ok { KeyID := keyID, Algorithm := "aes-gcm-hkdf", Nonce := nonce,
          Data := p.aesGCMSeal key nonce data }

/-- Embedding of the `StoredNonce` struct (crypto.go:380-387); the uuid is
modelled as a `Nat`, times as `Int`. -/
structure StoredNonce where
  ID : Nat
  Nonce : String
  Address : String
  CreatedAt : Int
  ExpiresAt : Int
  Used : Bool
deriving DecidableEq

/-- The failure cases of `VerifyAndConsumeNonce`: the `sql.ErrNoRows`
result of the `SELECT ... WHERE nonce = $1 AND used = false AND
address = $2` query, and the "nonce expired" error. -/
inductive ConsumeError
  | notFoundOrAlreadyUsed
  | expired
deriving DecidableEq

/-- The row predicate of the transaction's `SELECT` (crypto.go:396-402):
`nonce = $1 AND used = false AND address = $2`. -/
def nonceRowMatches (nonce address : String) (r : StoredNonce) : Bool :=
  r.Nonce == nonce && r.Used == false && r.Address == address

/-- Embedding of `VerifyAndConsumeNonce` (crypto.go:389-426).

Modelled from the spec: the repository's `internal/storage` package (the
`Connection.Transaction` wrapper and the SQL engine behind it) is not
among the shown sources; per spec section 4.4 and 5 the read-then-write
runs "within a single isolated transaction" under "serializable or
row-locking semantics", errors roll the transaction back leaving the row
unmodified, and concurrent consumers of the same pair are totally
ordered.  Accordingly the whole transaction body is one atomic step on
the nonce table: find the first row matching the query; if none, fail
`notFoundOrAlreadyUsed`; if expired, fail `expired` (rollback: table
unchanged); otherwise run the `UPDATE ... SET used = true, address = $1
WHERE id = $2`. -/
def VerifyAndConsumeNonce (now : Int) (table : List StoredNonce)
    (nonce address : String) : Option ConsumeError × List StoredNonce :=
  match table.find? (nonceRowMatches nonce address) with
  | none => (some .notFoundOrAlreadyUsed, table)
  | some storedNonce =>
    if now > storedNonce.ExpiresAt then (some .expired, table)
    else (none,
      table.map (fun r =>
        if r.ID == storedNonce.ID then { r with Used := true, Address := address } else r))

/-- Modelled from the spec: N concurrent `consume` calls on the same pair
serialize into N successive atomic transactions (spec section 4.4/5:
"nonce consumption for a given pair is totally ordered").  Runs `n`
consume calls in sequence, collecting each call's result. -/
def consumeMany (now : Int) (table : List StoredNonce) (nonce address : String) :
    Nat → List (Option ConsumeError) × List StoredNonce
  | 0 => ([], table)
  | n + 1 =>
    let step := VerifyAndConsumeNonce now table nonce address
    let rest := consumeMany now step.2 nonce address n
    (step.1 :: rest.1, rest.2)

/-- The error values of the `internal/utilities/solana` package, as listed
in spec section 4.1 (the package itself is not among the shown sources;
only the error kinds matter here). -/
inductive SIWSError
  | emptyRawMessage
  | emptySignature
  | nilMessage
  | missingDomain
  | invalidDomainFormat
  | domainMismatch
  | invalidPubKeySize
  | invalidVersion
  | invalidChainID
  | nonceTooShort
  | invalidURI
  | invalidResourceURI
  | signatureVerificationFailed
  | futureMessage
  | messageExpired
  | notYetValid
deriving DecidableEq

/-- The `siws.SIWSMessage` struct as used by `VerifySIWS`; optional
timestamps are `Option Int` (Go's zero `time.Time`, for which `IsZero`
holds, is `none`). -/
structure SIWSMessage where
  Domain : String
  Address : String
  Version : String
  ChainID : String
  Nonce : String
  URI : String
  Resources : List String
  IssuedAt : Option Int
  NotBefore : Option Int
  ExpirationTime : Option Int

/-- The `siws.SIWSVerificationParams` struct as used by `VerifySIWS`. -/
structure SIWSVerificationParams where
  ExpectedDomain : String
  CheckTime : Bool
  TimeDuration : Int

/-- External functions `VerifySIWS` calls that are implemented outside the
shown sources: `ed25519.Verify` (public key, message, signature),
`base58.Decode`, the `siws` helper predicates, `url.Parse` success
(`urlParseOk s = true` iff `url.Parse(s)` returns no error), and the
current time `time.Now().UTC()`. -/
structure SIWSPrims where
  ed25519Verify : List Nat → List Nat → List Nat → Bool
  base58Decode : String → List Nat
  IsValidDomain : String → Bool
  IsValidSolanaNetwork : String → Bool
  urlParseOk : String → Bool
  now : Int

/-- Modelled from the spec: `siws.IsBase58PubKey` is not among the shown
sources; spec sections 3 and 4.1 state the decoded address "must be
exactly 32 bytes". -/
def IsBase58PubKey (pubKey : List Nat) : Bool :=
  pubKey.length == 32

/-- The `expirationTime` check of `VerifySIWS` (crypto.go:302-308). -/
def verifyExpirationCheck (now : Int) (msg : SIWSMessage) : Option SIWSError :=
  match msg.ExpirationTime with
  | some t => if now > t then some .messageExpired else none
  | none => none

/-- The `notBefore` check of `VerifySIWS` followed by the
`expirationTime` check (crypto.go:294-308). -/
def verifyNotBeforeCheck (now : Int) (msg : SIWSMessage) : Option SIWSError :=
  match msg.NotBefore with
  | some t =>
    if now < t then some .notYetValid else verifyExpirationCheck now msg
  | none => verifyExpirationCheck now msg

/-- The time validations of `VerifySIWS`, step 9 of the source
(crypto.go:273-308): `issuedAt` in the future, issuance-age expiry when
`CheckTime` is set and `TimeDuration` positive, then `notBefore`, then
`expirationTime`. -/
def verifyTimeChecks (now : Int) (msg : SIWSMessage)
    (params : SIWSVerificationParams) : Option SIWSError :=
  match msg.IssuedAt with
  | some issuedAt =>
    if now < issuedAt then some .futureMessage
    else if params.CheckTime ∧ params.TimeDuration > 0 ∧
        now > issuedAt + params.TimeDuration then some .messageExpired
    else verifyNotBeforeCheck now msg
  | none => verifyNotBeforeCheck now msg

/-- Embedding of `VerifySIWS` (crypto.go:174-312): the ordered fail-fast
check sequence, returning `some err` where Go returns a non-nil error and
`none` where it returns nil.  The raw message is the byte slice
`[]byte(rawMessage)`; `rawMessage == ""` is emptiness of that slice, and
`len(msg.Nonce)` is the UTF-8 byte length. -/
def VerifySIWS (p : SIWSPrims) (rawMessage : List Nat) (signature : List Nat)
    (msg : Option SIWSMessage) (params : SIWSVerificationParams) : Option SIWSError :=
  if rawMessage = [] then some .emptyRawMessage
  else if signature = [] then some .emptySignature
  else
    match msg with
    | none => some .nilMessage
    | some m =>
      if params.ExpectedDomain = "" then some .missingDomain
      else if ¬ p.IsValidDomain m.Domain then some .invalidDomainFormat
      else if m.Domain ≠ params.ExpectedDomain then some .domainMismatch
      else if ¬ IsBase58PubKey (p.base58Decode m.Address) then some .invalidPubKeySize
      else if m.Version ≠ "1" then some .invalidVersion
      else if m.ChainID ≠ "" ∧ ¬ p.IsValidSolanaNetwork m.ChainID then some .invalidChainID
      else if m.Nonce ≠ "" ∧ m.Nonce.utf8ByteSize < 8 then some .nonceTooShort
      else if m.URI ≠ "" ∧ ¬ p.urlParseOk m.URI then some .invalidURI
      else if (m.Resources.find? (fun r => !(p.urlParseOk r))).isSome then
        some .invalidResourceURI
      else if ¬ p.ed25519Verify (p.base58Decode m.Address) rawMessage signature then
        some .signatureVerificationFailed
      else verifyTimeChecks p.now m params

/-- Concrete instantiation of the external crypto primitives, used by the
concrete-evaluation theorems: constant HKDF output and an identity AEAD
(which trivially satisfies the seal/open roundtrip contract). -/
def testCryptoPrims : CryptoPrims where
  hkdfSha256 := fun _ _ => List.replicate 32 0
  aesGCMSeal := fun _ _ data => data
  aesGCMOpen := fun _ _ data => some data

/-- A 43-character URL-safe base64 string decoding to 32 zero bytes. -/
def testKeyB64 : String := "AAAAAAAAAAAAAAAAAAAAAAAAAAAAAAAAAAAAAAAAAAA"

theorem decrypt_lookup_empty (p : CryptoPrims) (es : EncryptedString) (id : String)
    (keys : List (String × String)) (h : goMapLookup keys es.KeyID = "") :
    es.Decrypt p id keys = .error (.unknownKey es.KeyID) := by
  unfold EncryptedString.Decrypt
  simp [h]

/-- C7: `ShouldReEncrypt` returns true iff the envelope's stored key id
differs from the currently active key id, and false otherwise. -/
theorem shouldReEncrypt_iff_keyID_ne (es : EncryptedString) (encryptionKeyID : String) :
    es.ShouldReEncrypt encryptionKeyID = true ↔ es.KeyID ≠ encryptionKeyID := by
  simp [EncryptedString.ShouldReEncrypt]

/-- C10: `Decrypt`'s missing-key check tests the looked-up value for
emptiness, not map membership: a key id absent from the map and a key id
present but mapped to the empty string produce the same does-not-exist
error, and whenever the looked-up value is empty the call fails before
any key derivation. -/
theorem decrypt_missing_key_emptiness (p : CryptoPrims) (es : EncryptedString)
    (id : String) (decryptionKeys : List (String × String)) :
    (decryptionKeys.find? (fun kv => kv.1 == es.KeyID) = none →
      es.Decrypt p id decryptionKeys = .error (.unknownKey es.KeyID)) ∧
    (∀ kv, decryptionKeys.find? (fun kv' => kv'.1 == es.KeyID) = some kv → kv.2 = "" →
      es.Decrypt p id decryptionKeys = .error (.unknownKey es.KeyID)) ∧
    (goMapLookup decryptionKeys es.KeyID = "" →
      es.Decrypt p id decryptionKeys = .error (.unknownKey es.KeyID)) := by
  refine ⟨fun h => ?_, fun kv hfind hv => ?_, fun h => decrypt_lookup_empty p es id _ h⟩
  · exact decrypt_lookup_empty p es id _ (by simp [goMapLookup, h])
  · exact decrypt_lookup_empty p es id _ (by simp [goMapLookup, hfind, hv])

/-- C10 witness: a key id present in the map but mapped to `""` yields the
does-not-exist error. -/
theorem decrypt_missing_key_emptiness_witness :
    EncryptedString.Decrypt ⟨"k", "aes-gcm-hkdf", [1], [2]⟩ testCryptoPrims "rec" [("k", "")]
      = .error (.unknownKey "k") :=
  (decrypt_missing_key_emptiness testCryptoPrims ⟨"k", "aes-gcm-hkdf", [1], [2]⟩ "rec"
    [("k", "")]).2.1 ("k", "") (by decide) rfl

/-- C5: key derivation fails exactly when the base key material is not
valid URL-safe base64 or does not decode to exactly 256 bits; on success
it returns exactly the 256-bit HKDF-SHA256 output keyed by the decoded
base material with the record identifier as the info parameter. -/
theorem deriveSymmetricKey_characterization (p : CryptoPrims) (id keyID keyBase64URL : String)
    (hkdfLen : ∀ ikm info, (p.hkdfSha256 ikm info).length = 32) :
    (deriveSymmetricKey p id keyID keyBase64URL = .error .invalidBase64 ↔
      base64UrlDecode keyBase64URL = none) ∧
    (deriveSymmetricKey p id keyID keyBase64URL = .error .wrongKeySize ↔
      ∃ k, base64UrlDecode keyBase64URL = some k ∧ k.length ≠ 32) ∧
    (∀ k, base64UrlDecode keyBase64URL = some k → k.length = 32 →
      deriveSymmetricKey p id keyID keyBase64URL = .ok (p.hkdfSha256 k id) ∧
      (p.hkdfSha256 k id).length = 32) := by
  unfold deriveSymmetricKey
  cases hdec : base64UrlDecode keyBase64URL with
  | none => simp [hdec]
  | some k =>
    by_cases hlen32 : k.length = 32
    · simp [hdec, hlen32, hkdfLen]
    · simp [hdec, hlen32]

/-- C5 witness: a 43-character all-`A` key decodes to 32 zero bytes and
derivation succeeds with the HKDF output. -/
theorem deriveSymmetricKey_characterization_witness :
    deriveSymmetricKey testCryptoPrims "rec" "key1" testKeyB64 =
      .ok (testCryptoPrims.hkdfSha256 (List.replicate 32 0) "rec") ∧
    (testCryptoPrims.hkdfSha256 (List.replicate 32 0) "rec").length = 32 :=
  (deriveSymmetricKey_characterization testCryptoPrims "rec" "key1" testKeyB64
    (fun _ _ => by simp [testCryptoPrims])).2.2 (List.replicate 32 0) (by decide) (by decide)

/-- C4: encrypting any plaintext (empty included) under any record id,
key id and valid 256-bit base key, then decrypting the resulting envelope
with the same record id and a key map sending that key id to the same
base key, returns exactly the original plaintext. -/
theorem encrypt_decrypt_roundtrip (p : CryptoPrims) (id : String) (data : List Nat)
    (keyID keyBase64URL : String) (nonce : List Nat)
    (decryptionKeys : List (String × String)) (k : List Nat)
    (haead : ∀ key n pt, p.aesGCMOpen key n (p.aesGCMSeal key n pt) = some pt)
    (hdec : base64UrlDecode keyBase64URL = some k) (hk : k.length = 32)
    (hmap : goMapLookup decryptionKeys keyID = keyBase64URL) :
    ∃ es, NewEncryptedString p id data keyID keyBase64URL nonce = .ok es ∧
      es.Decrypt p id decryptionKeys = .ok data := by
  have hne : keyBase64URL ≠ "" := by
    intro h
    rw [h] at hdec
    have : k = [] := by
      have : base64UrlDecode "" = some [] := rfl
      rw [this] at hdec
      exact (Option.some_injective _ hdec).symm
    simp [this] at hk
  have hderive : deriveSymmetricKey p id keyID keyBase64URL = .ok (p.hkdfSha256 k id) := by
    unfold deriveSymmetricKey
    simp [hdec, hk]
  refine ⟨{ KeyID := keyID, Algorithm := "aes-gcm-hkdf", Nonce := nonce,
            Data := p.aesGCMSeal (p.hkdfSha256 k id) nonce data }, ?_, ?_⟩
  · unfold NewEncryptedString
    rw [hderive]
  · unfold EncryptedString.Decrypt
    simp only [hmap]
    rw [if_neg hne, hderive]
    simp [haead]

/-- C4 witness: concrete roundtrip with the identity AEAD primitives. -/
theorem encrypt_decrypt_roundtrip_witness :
    ∃ es, NewEncryptedString testCryptoPrims "rec" [1, 2, 3] "key1" testKeyB64
        (List.replicate 12 0) = .ok es ∧
      es.Decrypt testCryptoPrims "rec" [("key1", testKeyB64)] = .ok [1, 2, 3] :=
  encrypt_decrypt_roundtrip testCryptoPrims "rec" [1, 2, 3] "key1" testKeyB64
    (List.replicate 12 0) [("key1", testKeyB64)] (List.replicate 32 0)
    (fun _ _ _ => rfl) (by decide) (by decide) (by decide)

theorem find?_append_of_forall_false {α : Type} (p : α → Bool) (l₁ l₂ : List α)
    (h : ∀ r ∈ l₁, p r = false) : (l₁ ++ l₂).find? p = l₂.find? p := by
  induction l₁ with
  | nil => rfl
  | cons a l ih =>
    have ha : p a = false := h a (by simp)
    simp only [List.cons_append, List.find?]
    rw [ha]
    exact ih (fun r hr => h r (by simp [hr]))

theorem consume_no_match (now : Int) (table : List StoredNonce) (nonce address : String)
    (h : ∀ r ∈ table, nonceRowMatches nonce address r = false) :
    VerifyAndConsumeNonce now table nonce address = (some .notFoundOrAlreadyUsed, table) := by
  unfold VerifyAndConsumeNonce
  rw [List.find?_eq_none.mpr (fun r hr => by simp [h r hr])]

theorem consumeMany_no_match (now : Int) (table : List StoredNonce) (nonce address : String)
    (h : ∀ r ∈ table, nonceRowMatches nonce address r = false) (n : Nat) :
    consumeMany now table nonce address n =
      (List.replicate n (some .notFoundOrAlreadyUsed), table) := by
  induction n with
  | zero => rfl
  | succ m ih =>
    unfold consumeMany
    rw [consume_no_match now table nonce address h]
    simp [ih, List.replicate_succ]

theorem forall₂_rel_map {α : Type} (f : α → α) (p : α → α → Prop)
    (l : List α) (h : ∀ a ∈ l, p a (f a)) : List.Forall₂ p l (l.map f) := by
  induction l with
  | nil => exact List.Forall₂.nil
  | cons a l ih =>
    exact List.Forall₂.cons (h a (by simp)) (ih (fun a ha => h a (by simp [ha])))

theorem forall₂_rel_self {α : Type} (p : α → α → Prop) (l : List α)
    (h : ∀ a ∈ l, p a a) : List.Forall₂ p l l := by
  induction l with
  | nil => exact List.Forall₂.nil
  | cons a l ih =>
    exact List.Forall₂.cons (h a (by simp)) (ih (fun a ha => h a (by simp [ha])))

/-- The `used` flag never transitions back: every consume call preserves
row identities positionally and never clears an already-set flag. -/
theorem consume_used_monotone (now : Int) (table : List StoredNonce) (nonce address : String) :
    List.Forall₂ (fun r r' => r.ID = r'.ID ∧ (r.Used = true → r'.Used = true))
      table (VerifyAndConsumeNonce now table nonce address).2 := by
  unfold VerifyAndConsumeNonce
  cases hfind : table.find? (nonceRowMatches nonce address) with
  | none => exact forall₂_rel_self _ _ (fun a _ => ⟨rfl, fun h => h⟩)
  | some storedNonce =>
    by_cases hexp : now > storedNonce.ExpiresAt
    · simp only [hexp, if_true]
      exact forall₂_rel_self _ _ (fun a _ => ⟨rfl, fun h => h⟩)
    · simp only [hexp, if_false]
      refine forall₂_rel_map _ _ _ (fun a _ => ?_)
      by_cases hid : (a.ID == storedNonce.ID) = true
      · simp [hid]
      · simp [hid]

/-- C6: when the transaction's query finds the row (matching nonce and
address, `used = false`) but its expiry has passed, consume fails with
the `Expired` error and the table is returned unchanged — the rollback
leaves the row with `used = false`. -/
theorem consume_expired_rollback (now : Int) (t₁ t₂ : List StoredNonce) (row : StoredNonce)
    (nonce address : String)
    (hrow : row.Nonce = nonce ∧ row.Address = address ∧ row.Used = false)
    (hexp : now > row.ExpiresAt)
    (hskip : ∀ r ∈ t₁, nonceRowMatches nonce address r = false) :
    VerifyAndConsumeNonce now (t₁ ++ row :: t₂) nonce address =
      (some .expired, t₁ ++ row :: t₂) := by
  obtain ⟨h1, h2, h3⟩ := hrow
  have hmatch : nonceRowMatches nonce address row = true := by
    simp [nonceRowMatches, h1, h2, h3]
  unfold VerifyAndConsumeNonce
  rw [find?_append_of_forall_false _ _ _ hskip]
  simp only [List.find?]
  rw [hmatch]
  simp [hexp]

/-- C6 witness: expired row, consume fails `Expired`, table unchanged. -/
theorem consume_expired_rollback_witness :
    VerifyAndConsumeNonce 10 [⟨1, "nonce123", "addr", 0, 5, false⟩] "nonce123" "addr" =
      (some .expired, [⟨1, "nonce123", "addr", 0, 5, false⟩]) :=
  consume_expired_rollback 10 [] [] ⟨1, "nonce123", "addr", 0, 5, false⟩ "nonce123" "addr"
    (by decide) (by decide) (by simp)

/-- C1: with one issued (unused, unexpired) nonce row for the pair, `n + 1`
serialized consume calls yield exactly one success followed by `n`
`NotFoundOrAlreadyUsed` failures; the row's `used` flag goes from false
to true exactly once, and (last conjunct, fully general) no consume call
ever clears a set `used` flag. -/
theorem nonce_consume_exactly_once (now : Int) (t₁ t₂ : List StoredNonce)
    (row : StoredNonce) (nonce address : String) (n : Nat)
    (hrow : row.Nonce = nonce ∧ row.Address = address ∧ row.Used = false ∧
      now ≤ row.ExpiresAt)
    (hothers : ∀ r ∈ t₁ ++ t₂, ¬(r.Nonce = nonce ∧ r.Address = address))
    (hids : ∀ r ∈ t₁ ++ t₂, r.ID ≠ row.ID) :
    (consumeMany now (t₁ ++ row :: t₂) nonce address (n + 1)).1 =
      none :: List.replicate n (some .notFoundOrAlreadyUsed) ∧
    (consumeMany now (t₁ ++ row :: t₂) nonce address (n + 1)).2 =
      t₁ ++ { row with Used := true, Address := address } :: t₂ ∧
    (∀ now' t nn aa, List.Forall₂ (fun r r' => r.ID = r'.ID ∧ (r.Used = true → r'.Used = true))
      t (VerifyAndConsumeNonce now' t nn aa).2) := by
  obtain ⟨h1, h2, h3, h4⟩ := hrow
  have hmatch : nonceRowMatches nonce address row = true := by
    simp [nonceRowMatches, h1, h2, h3]
  have hskip1 : ∀ r ∈ t₁, nonceRowMatches nonce address r = false := by
    intro r hr
    have := hothers r (by simp [hr])
    simp only [nonceRowMatches]
    rcases Decidable.em (r.Nonce = nonce) with hn | hn
    · rcases Decidable.em (r.Address = address) with ha | ha
      · exact absurd ⟨hn, ha⟩ this
      · simp [ha]
    · simp [hn]
  have hstep : VerifyAndConsumeNonce now (t₁ ++ row :: t₂) nonce address =
      (none, t₁ ++ { row with Used := true, Address := address } :: t₂) := by
    unfold VerifyAndConsumeNonce
    rw [find?_append_of_forall_false _ _ _ hskip1]
    simp only [List.find?]
    rw [hmatch]
    have hexp : ¬ now > row.ExpiresAt := by omega
    simp only [hexp, if_false]
    congr 1
    rw [List.map_append]
    congr 1
    · conv_rhs => rw [show t₁ = t₁.map id from (List.map_id t₁).symm]
      refine List.map_congr_left (fun a ha => ?_)
      have : (a.ID == row.ID) = false := by
        simp [hids a (by simp [ha])]
      simp [this]
    · simp only [List.map_cons, beq_self_eq_true, if_true]
      congr 1
      conv_rhs => rw [show t₂ = t₂.map id from (List.map_id t₂).symm]
      refine List.map_congr_left (fun a ha => ?_)
      have : (a.ID == row.ID) = false := by
        simp [hids a (by simp [ha])]
      simp [this]
  have hafter : ∀ r ∈ t₁ ++ { row with Used := true, Address := address } :: t₂,
      nonceRowMatches nonce address r = false := by
    intro r hr
    rcases List.mem_append.mp hr with hr1 | hr2
    · exact hskip1 r hr1
    · rcases List.mem_cons.mp hr2 with hr3 | hr4
      · subst hr3
        simp [nonceRowMatches]
      · have := hothers r (by simp [hr4])
        simp only [nonceRowMatches]
        rcases Decidable.em (r.Nonce = nonce) with hn | hn
        · rcases Decidable.em (r.Address = address) with ha | ha
          · exact absurd ⟨hn, ha⟩ this
          · simp [ha]
        · simp [hn]
  refine ⟨?_, ?_, fun now' t nn aa => consume_used_monotone now' t nn aa⟩
  · show (consumeMany now (t₁ ++ row :: t₂) nonce address (n + 1)).1 = _
    unfold consumeMany
    rw [hstep]
    simp [consumeMany_no_match _ _ _ _ hafter n]
  · unfold consumeMany
    rw [hstep]
    simp [consumeMany_no_match _ _ _ _ hafter n]

/-- C1 witness: one issued nonce, two serialized consume calls, exactly
one success and one `NotFoundOrAlreadyUsed`, flag set to true. -/
theorem nonce_consume_exactly_once_witness :
    (consumeMany 0 [⟨1, "nonce123", "addr", 0, 10, false⟩] "nonce123" "addr" 2).1 =
      [none, some .notFoundOrAlreadyUsed] ∧
    (consumeMany 0 [⟨1, "nonce123", "addr", 0, 10, false⟩] "nonce123" "addr" 2).2 =
      [⟨1, "nonce123", "addr", 0, 10, true⟩] :=
  ⟨(nonce_consume_exactly_once 0 [] [] ⟨1, "nonce123", "addr", 0, 10, false⟩
      "nonce123" "addr" 1 (by decide) (by simp) (by simp)).1,
   (nonce_consume_exactly_once 0 [] [] ⟨1, "nonce123", "addr", 0, 10, false⟩
      "nonce123" "addr" 1 (by decide) (by simp) (by simp)).2.1⟩

/-- First failing check of an ordered check list: the first `some` error,
or `none` when every check passes (spec section 4.1's "fail-fast, first
failing check determines the reported error kind"). -/
def firstFailure : List (Option SIWSError) → Option SIWSError
  | [] => none
  | some e :: _ => some e
  | none :: rest => firstFailure rest

/-- The sixteen preconditions of spec section 4.1 as an ordered check
list, evaluated on a present parsed message (check 3 passes); check 14
contributes its two error kinds as two consecutive entries. -/
def specOrderedChecks (p : SIWSPrims) (rawMessage signature : List Nat)
    (m : SIWSMessage) (params : SIWSVerificationParams) : List (Option SIWSError) :=
  [ if rawMessage = [] then some .emptyRawMessage else none,
    if signature = [] then some .emptySignature else none,
    none,
    if params.ExpectedDomain = "" then some .missingDomain else none,
    if ¬ p.IsValidDomain m.Domain then some .invalidDomainFormat else none,
    if m.Domain ≠ params.ExpectedDomain then some .domainMismatch else none,
    if ¬ IsBase58PubKey (p.base58Decode m.Address) then some .invalidPubKeySize else none,
    if m.Version ≠ "1" then some .invalidVersion else none,
    if m.ChainID ≠ "" ∧ ¬ p.IsValidSolanaNetwork m.ChainID then some .invalidChainID else none,
    if m.Nonce ≠ "" ∧ m.Nonce.utf8ByteSize < 8 then some .nonceTooShort else none,
    if m.URI ≠ "" ∧ ¬ p.urlParseOk m.URI then some .invalidURI else none,
    if (m.Resources.find? (fun r => !(p.urlParseOk r))).isSome then
      some .invalidResourceURI else none,
    if ¬ p.ed25519Verify (p.base58Decode m.Address) rawMessage signature then
      some .signatureVerificationFailed else none,
    (match m.IssuedAt with
     | some t => if p.now < t then some .futureMessage else none
     | none => none),
    (match m.IssuedAt with
     | some t =>
       if params.CheckTime ∧ params.TimeDuration > 0 ∧ p.now > t + params.TimeDuration then
         some .messageExpired else none
     | none => none),
    (match m.NotBefore with
     | some t => if p.now < t then some .notYetValid else none
     | none => none),
    (match m.ExpirationTime with
     | some t => if p.now > t then some .messageExpired else none
     | none => none) ]

/-- The verifier as worded by spec section 4.1: evaluate the ordered check
list and report the first failure (checks 1-3 guard the absent-message
case). -/
def VerifySIWSSpec (p : SIWSPrims) (rawMessage signature : List Nat)
    (msg : Option SIWSMessage) (params : SIWSVerificationParams) : Option SIWSError :=
  match msg with
  | none => firstFailure
      [ if rawMessage = [] then some .emptyRawMessage else none,
        if signature = [] then some .emptySignature else none,
        some .nilMessage ]
  | some m => firstFailure (specOrderedChecks p rawMessage signature m params)

theorem firstFailure_ite_cons (c : Prop) [Decidable c] (e : SIWSError)
    (l : List (Option SIWSError)) :
    firstFailure ((if c then some e else none) :: l) =
      if c then some e else firstFailure l := by
  split_ifs <;> simp [firstFailure]

theorem verifyTimeChecks_eq_firstFailure (now : Int) (m : SIWSMessage)
    (params : SIWSVerificationParams) :
    verifyTimeChecks now m params = firstFailure
      [ (match m.IssuedAt with
         | some t => if now < t then some .futureMessage else none
         | none => none),
        (match m.IssuedAt with
         | some t =>
           if params.CheckTime ∧ params.TimeDuration > 0 ∧ now > t + params.TimeDuration then
             some .messageExpired else none
         | none => none),
        (match m.NotBefore with
         | some t => if now < t then some .notYetValid else none
         | none => none),
        (match m.ExpirationTime with
         | some t => if now > t then some .messageExpired else none
         | none => none) ] := by
  unfold verifyTimeChecks verifyNotBeforeCheck verifyExpirationCheck
  cases m.IssuedAt <;> cases m.NotBefore <;> cases m.ExpirationTime <;>
    simp only [firstFailure_ite_cons, firstFailure]

/-- C3: the verifier evaluates the sixteen preconditions of spec section
4.1 in exactly the stated order, fail-fast: for every input it returns
the error of the first failing check of the ordered list, and success
exactly when all checks pass. -/
theorem verifySIWS_eq_spec (p : SIWSPrims) (rawMessage signature : List Nat)
    (msg : Option SIWSMessage) (params : SIWSVerificationParams) :
    VerifySIWS p rawMessage signature msg params =
      VerifySIWSSpec p rawMessage signature msg params := by
  cases msg with
  | none =>
    simp only [VerifySIWS, VerifySIWSSpec, firstFailure_ite_cons, firstFailure]
  | some m =>
    simp only [VerifySIWS, VerifySIWSSpec, specOrderedChecks,
      verifyTimeChecks_eq_firstFailure, firstFailure_ite_cons, firstFailure]

/-- Checks 4-10 of spec section 4.1 pass (everything before the URI
checks, except the raw-input checks 1-3). -/
def preURIChecksPass (p : SIWSPrims) (m : SIWSMessage) (params : SIWSVerificationParams) : Prop :=
  params.ExpectedDomain ≠ "" ∧
  p.IsValidDomain m.Domain = true ∧
  m.Domain = params.ExpectedDomain ∧
  IsBase58PubKey (p.base58Decode m.Address) = true ∧
  m.Version = "1" ∧
  (m.ChainID ≠ "" → p.IsValidSolanaNetwork m.ChainID = true) ∧
  (m.Nonce ≠ "" → 8 ≤ m.Nonce.utf8ByteSize)

/-- Checks 4-12 of spec section 4.1 pass (everything before the signature
check, except the raw-input checks 1-3). -/
def structuralChecksPass (p : SIWSPrims) (m : SIWSMessage)
    (params : SIWSVerificationParams) : Prop :=
  preURIChecksPass p m params ∧
  (m.URI ≠ "" → p.urlParseOk m.URI = true) ∧
  (∀ r ∈ m.Resources, p.urlParseOk r = true)

instance (p : SIWSPrims) (m : SIWSMessage) (params : SIWSVerificationParams) :
    Decidable (preURIChecksPass p m params) := by
  unfold preURIChecksPass; infer_instance

instance (p : SIWSPrims) (m : SIWSMessage) (params : SIWSVerificationParams) :
    Decidable (structuralChecksPass p m params) := by
  unfold structuralChecksPass; infer_instance

theorem verifySIWS_preURI_reduce (p : SIWSPrims) (raw sig : List Nat) (m : SIWSMessage)
    (params : SIWSVerificationParams) (hraw : raw ≠ []) (hsig : sig ≠ [])
    (hs : preURIChecksPass p m params) :
    VerifySIWS p raw sig (some m) params =
      (if m.URI ≠ "" ∧ ¬ p.urlParseOk m.URI then some .invalidURI
       else if (m.Resources.find? (fun r => !(p.urlParseOk r))).isSome then
         some .invalidResourceURI
       else if ¬ p.ed25519Verify (p.base58Decode m.Address) raw sig then
         some .signatureVerificationFailed
       else verifyTimeChecks p.now m params) := by
  obtain ⟨h1, h2, h3, h4, h5, h6, h7⟩ := hs
  unfold VerifySIWS
  rw [if_neg hraw, if_neg hsig]
  dsimp only
  rw [if_neg h1, if_neg (by simp [h2]), if_neg (by simp [h3]),
    if_neg (by simp [h4]), if_neg (by simp [h5]),
    if_neg (by rintro ⟨hc, hv⟩; exact hv (h6 hc)),
    if_neg (by rintro ⟨hn, hlt⟩; exact absurd (h7 hn) (by omega))]

theorem verifySIWS_structural_reduce (p : SIWSPrims) (raw sig : List Nat) (m : SIWSMessage)
    (params : SIWSVerificationParams) (hraw : raw ≠ []) (hsig : sig ≠ [])
    (hs : structuralChecksPass p m params) :
    VerifySIWS p raw sig (some m) params =
      (if p.ed25519Verify (p.base58Decode m.Address) raw sig then
        verifyTimeChecks p.now m params
       else some .signatureVerificationFailed) := by
  obtain ⟨hpre, hu, hr⟩ := hs
  rw [verifySIWS_preURI_reduce p raw sig m params hraw hsig hpre]
  have hres : m.Resources.find? (fun r => !(p.urlParseOk r)) = none :=
    List.find?_eq_none.mpr (fun r hmem => by simp [hr r hmem])
  rw [if_neg (by rintro ⟨hu', hbad⟩; exact hbad (hu hu')), if_neg (by simp [hres])]
  by_cases hv : p.ed25519Verify (p.base58Decode m.Address) raw sig = true <;> simp [hv]

theorem verifyTimeChecks_ne_sigfail (now : Int) (m : SIWSMessage)
    (params : SIWSVerificationParams) :
    verifyTimeChecks now m params ≠ some .signatureVerificationFailed := by
  unfold verifyTimeChecks verifyNotBeforeCheck verifyExpirationCheck
  cases m.IssuedAt <;> cases m.NotBefore <;> cases m.ExpirationTime <;> dsimp only <;>
    (try split_ifs) <;> simp

/-- C2: with the structural checks passing, the signature check applies
the verification equation to the 32-byte decoded public key, the literal
raw message bytes and the signature bytes: the verifier's outcome is
exactly the equation's outcome (success continues to the time checks,
which never report a signature failure); a correctly-signed message never
fails the signature check; any single-byte change of signature or raw
message that falsifies the equation yields
`SignatureVerificationFailed`; and the raw bytes enter the verdict only
through the equation — never through a re-serialization. -/
theorem verifySIWS_signature_check (p : SIWSPrims) (raw sig : List Nat) (m : SIWSMessage)
    (params : SIWSVerificationParams) (hraw : raw ≠ []) (hsig : sig ≠ [])
    (hs : structuralChecksPass p m params) :
    (p.base58Decode m.Address).length = 32 ∧
    (VerifySIWS p raw sig (some m) params =
      if p.ed25519Verify (p.base58Decode m.Address) raw sig then
        verifyTimeChecks p.now m params
      else some .signatureVerificationFailed) ∧
    (∀ now' m' params', verifyTimeChecks now' m' params' ≠ some .signatureVerificationFailed) ∧
    (p.ed25519Verify (p.base58Decode m.Address) raw sig = true →
      VerifySIWS p raw sig (some m) params ≠ some .signatureVerificationFailed) ∧
    (∀ i b, p.ed25519Verify (p.base58Decode m.Address) (raw.set i b) sig = false →
      VerifySIWS p (raw.set i b) sig (some m) params = some .signatureVerificationFailed) ∧
    (∀ sig', sig' ≠ [] → p.ed25519Verify (p.base58Decode m.Address) raw sig' = false →
      VerifySIWS p raw sig' (some m) params = some .signatureVerificationFailed) ∧
    (∀ raw', raw' ≠ [] →
      p.ed25519Verify (p.base58Decode m.Address) raw' sig =
        p.ed25519Verify (p.base58Decode m.Address) raw sig →
      VerifySIWS p raw' sig (some m) params = VerifySIWS p raw sig (some m) params) := by
  have hlen : (p.base58Decode m.Address).length = 32 := by
    have := hs.1.2.2.2.1
    simpa [IsBase58PubKey] using this
  refine ⟨hlen, verifySIWS_structural_reduce p raw sig m params hraw hsig hs,
    fun now' m' params' => verifyTimeChecks_ne_sigfail now' m' params', ?_, ?_, ?_, ?_⟩
  · intro hv
    rw [verifySIWS_structural_reduce p raw sig m params hraw hsig hs, if_pos hv]
    exact verifyTimeChecks_ne_sigfail p.now m params
  · intro i b hv
    have hne : raw.set i b ≠ [] := by
      intro h
      apply hraw
      have := congrArg List.length h
      simp at this
      exact this
    rw [verifySIWS_structural_reduce p (raw.set i b) sig m params hne hsig hs, if_neg (by simp [hv])]
  · intro sig' hne hv
    rw [verifySIWS_structural_reduce p raw sig' m params hraw hne hs, if_neg (by simp [hv])]
  · intro raw' hne hv
    rw [verifySIWS_structural_reduce p raw' sig m params hne hsig hs,
      verifySIWS_structural_reduce p raw sig m params hraw hsig hs, hv]

/-- Concrete instantiation of the verifier's external primitives: the toy
signature scheme verifies `sig` against `pubkey ++ message`, every string
is an accepted URI and network, the decoded address is 32 zero bytes. -/
def testSIWSPrims : SIWSPrims where
  ed25519Verify := fun pk msg sig => sig == pk ++ msg
  base58Decode := fun _ => List.replicate 32 0
  IsValidDomain := fun d => d != ""
  IsValidSolanaNetwork := fun _ => true
  urlParseOk := fun _ => true
  now := 0

/-- A well-formed concrete message for the concrete-evaluation theorems. -/
def testSIWSMessage : SIWSMessage where
  Domain := "example.com"
  Address := "addr"
  Version := "1"
  ChainID := ""
  Nonce := "abcdefgh"
  URI := ""
  Resources := []
  IssuedAt := none
  NotBefore := none
  ExpirationTime := none

/-- Matching verification parameters for `testSIWSMessage`. -/
def testSIWSParams : SIWSVerificationParams where
  ExpectedDomain := "example.com"
  CheckTime := false
  TimeDuration := 0

/-- C2 witness: a correctly-signed concrete message does not fail the
signature check. -/
theorem verifySIWS_signature_check_witness :
    VerifySIWS testSIWSPrims [1, 2, 3] (List.replicate 32 0 ++ [1, 2, 3])
      (some testSIWSMessage) testSIWSParams ≠ some .signatureVerificationFailed :=
  (verifySIWS_signature_check testSIWSPrims [1, 2, 3] (List.replicate 32 0 ++ [1, 2, 3])
    testSIWSMessage testSIWSParams (by decide) (by decide) (by decide)).2.2.2.1 (by decide)

set_option maxHeartbeats 1000000 in
/-- C9: a non-empty `uri` field rejected by the URI syntax check makes the
verifier return `InvalidURI` (once the earlier checks pass), a rejected
`resources` entry makes it return `InvalidResourceURI`, and — with no
hypothesis on the earlier checks — a message whose `uri` or `resources`
contain a rejected URI never passes verification. -/
theorem verifySIWS_uri_validation (p : SIWSPrims) (raw sig : List Nat) (m : SIWSMessage)
    (params : SIWSVerificationParams) :
    (raw ≠ [] → sig ≠ [] → preURIChecksPass p m params →
      ((m.URI ≠ "" → p.urlParseOk m.URI = false →
          VerifySIWS p raw sig (some m) params = some .invalidURI) ∧
       ((m.URI = "" ∨ p.urlParseOk m.URI = true) →
          (∃ r ∈ m.Resources, p.urlParseOk r = false) →
          VerifySIWS p raw sig (some m) params = some .invalidResourceURI))) ∧
    (((m.URI ≠ "" ∧ p.urlParseOk m.URI = false) ∨ (∃ r ∈ m.Resources, p.urlParseOk r = false)) →
      VerifySIWS p raw sig (some m) params ≠ none) := by
  constructor
  · intro hraw hsig hpre
    rw [verifySIWS_preURI_reduce p raw sig m params hraw hsig hpre]
    constructor
    · intro hu hbad
      rw [if_pos ⟨hu, by simp [hbad]⟩]
    · intro hok hbad
      have huri : ¬(m.URI ≠ "" ∧ ¬ p.urlParseOk m.URI = true) := by
        rcases hok with h | h
        · rintro ⟨hne, _⟩; exact hne h
        · rintro ⟨_, hno⟩; exact hno h
      rw [if_neg huri]
      obtain ⟨r, hmem, hr⟩ := hbad
      have : (m.Resources.find? (fun r => !(p.urlParseOk r))).isSome = true := by
        rcases hfind : m.Resources.find? (fun r => !(p.urlParseOk r)) with _ | v
        · have := List.find?_eq_none.mp hfind r hmem
          simp [hr] at this
        · rfl
      rw [if_pos this]
  · intro hbad hnone
    by_cases hraw : raw = []
    · unfold VerifySIWS at hnone
      rw [if_pos hraw] at hnone
      exact Option.noConfusion hnone
    by_cases hsig : sig = []
    · unfold VerifySIWS at hnone
      rw [if_neg hraw, if_pos hsig] at hnone
      exact Option.noConfusion hnone
    unfold VerifySIWS at hnone
    rw [if_neg hraw, if_neg hsig] at hnone
    dsimp only at hnone
    split_ifs at hnone with h1 h2 h3 h4 h5 h6 h7 h8 h9 h10 <;>
      try exact Option.noConfusion hnone
    rcases hbad with ⟨hu, hbadu⟩ | ⟨r, hmem, hbadr⟩
    · exact h8 ⟨hu, by simp [hbadu]⟩
    · have hfind : m.Resources.find? (fun r => !(p.urlParseOk r)) = none :=
        Option.not_isSome_iff_eq_none.mp (by simpa using h9)
      have := List.find?_eq_none.mp hfind r hmem
      simp [hbadr] at this

/-- The verifier primitives with a URI syntax check that rejects the
string `"bad"`. -/
def testSIWSPrimsURI : SIWSPrims :=
  { testSIWSPrims with urlParseOk := fun s => s != "bad" }

/-- C9 witness: a concrete message whose `uri` is rejected by the URI
syntax check yields `InvalidURI`. -/
theorem verifySIWS_uri_validation_witness :
    VerifySIWS testSIWSPrimsURI [1] [2] (some { testSIWSMessage with URI := "bad" })
      testSIWSParams = some .invalidURI :=
  ((verifySIWS_uri_validation testSIWSPrimsURI [1] [2]
    { testSIWSMessage with URI := "bad" } testSIWSParams).1
      (by decide) (by decide) (by decide)).1 (by decide) (by decide)

/-- The opening brace character (byte 0x7b). -/
def lbrace : Char := Char.ofNat 123

/-- The closing brace character (byte 0x7d). -/
def rbrace : Char := Char.ofNat 125

/-- The standard base64 alphabet character of a 6-bit value (Go
`base64.StdEncoding`). -/
def base64StdDigitChar (n : Nat) : Char :=
  if n < 26 then Char.ofNat (65 + n)
  else if n < 52 then Char.ofNat (97 + (n - 26))
  else if n < 62 then Char.ofNat (48 + (n - 52))
  else if n = 62 then '+'
  else '/'

/-- The 6-bit value of a standard base64 alphabet character. -/
def base64StdDigit (c : Char) : Option Nat :=
  if 'A' ≤ c ∧ c ≤ 'Z' then some (c.toNat - 65)
  else if 'a' ≤ c ∧ c ≤ 'z' then some (c.toNat - 97 + 26)
  else if '0' ≤ c ∧ c ≤ '9' then some (c.toNat - 48 + 52)
  else if c = '+' then some 62
  else if c = '/' then some 63
  else none

/-- Go `base64.StdEncoding` encoding of a byte list (padded). -/
def base64StdEncode : List Nat → List Char
  | [] => []
  | [b1] =>
    [base64StdDigitChar (b1 / 4), base64StdDigitChar (b1 % 4 * 16), '=', '=']
  | [b1, b2] =>
    [base64StdDigitChar (b1 / 4), base64StdDigitChar (b1 % 4 * 16 + b2 / 16),
     base64StdDigitChar (b2 % 16 * 4), '=']
  | b1 :: b2 :: b3 :: rest =>
    base64StdDigitChar (b1 / 4) :: base64StdDigitChar (b1 % 4 * 16 + b2 / 16) ::
    base64StdDigitChar (b2 % 16 * 4 + b3 / 64) :: base64StdDigitChar (b3 % 64) ::
    base64StdEncode rest

/-- Go `base64.StdEncoding` decoding of a character list (padded: length a
multiple of four, `=` only at the very end). -/
def base64StdDecode : List Char → Option (List Nat)
  | [] => some []
  | c1 :: c2 :: c3 :: c4 :: rest =>
    match base64StdDigit c1, base64StdDigit c2 with
    | some d1, some d2 =>
      if c3 = '=' then
        if c4 = '=' ∧ rest = [] then some [d1 * 4 + d2 / 16] else none
      else
        match base64StdDigit c3 with
        | some d3 =>
          if c4 = '=' then
            if rest = [] then some [d1 * 4 + d2 / 16, d2 % 16 * 16 + d3 / 4] else none
          else
            match base64StdDigit c4, base64StdDecode rest with
            | some d4, some tail =>
              some ((d1 * 4 + d2 / 16) :: (d2 % 16 * 16 + d3 / 4) :: (d3 % 4 * 64 + d4) :: tail)
            | _, _ => none
        | none => none
    | _, _ => none
  | _ => none

/-- Lowercase hexadecimal digit character of a value below 16. -/
def hexDigitChar (n : Nat) : Char :=
  if n < 10 then Char.ofNat (48 + n) else Char.ofNat (87 + n)

/-- Value of a hexadecimal digit character (both cases accepted). -/
def hexVal (c : Char) : Option Nat :=
  if '0' ≤ c ∧ c ≤ '9' then some (c.toNat - 48)
  else if 'a' ≤ c ∧ c ≤ 'f' then some (c.toNat - 97 + 10)
  else if 'A' ≤ c ∧ c ≤ 'F' then some (c.toNat - 65 + 10)
  else none

/-- Go `encoding/json` string escaping of one character (the encoder's
default HTML-escaping behaviour): backslash, quote, newline, carriage
return, tab, other control characters, `<`, `>`, `&`, U+2028 and U+2029
are escaped; everything else passes through. -/
def jsonEscapeChar (c : Char) : List Char :=
  if c = '"' then ['\\', '"']
  else if c = '\\' then ['\\', '\\']
  else if c = '\n' then ['\\', 'n']
  else if c = '\r' then ['\\', 'r']
  else if c = '\t' then ['\\', 't']
  else if c.toNat < 32 then
    ['\\', 'u', '0', '0', hexDigitChar (c.toNat / 16), hexDigitChar (c.toNat % 16)]
  else if c = '<' then ['\\', 'u', '0', '0', '3', 'c']
  else if c = '>' then ['\\', 'u', '0', '0', '3', 'e']
  else if c = '&' then ['\\', 'u', '0', '0', '2', '6']
  else if c.toNat = 8232 then ['\\', 'u', '2', '0', '2', '8']
  else if c.toNat = 8233 then ['\\', 'u', '2', '0', '2', '9']
  else [c]

/-- A JSON string literal: quote, escaped characters, quote. -/
def jsonQuoteString (s : String) : List Char :=
  '"' :: s.data.flatMap jsonEscapeChar ++ ['"']

/-- The character list of Go `json.Marshal` on an `EncryptedString`
(crypto.go:119-123): field-tagged object in struct field order, byte
slices in padded standard base64, `nonce` omitted when empty. -/
def encodeEncryptedString (es : EncryptedString) : List Char :=
  lbrace :: jsonQuoteString "key_id" ++ ':' :: jsonQuoteString es.KeyID ++ ',' ::
  jsonQuoteString "alg" ++ ':' :: jsonQuoteString es.Algorithm ++ ',' ::
  jsonQuoteString "data" ++ ':' :: '"' :: base64StdEncode es.Data ++ '"' ::
  (if es.Nonce.isEmpty then [] else
    ',' :: jsonQuoteString "nonce" ++ ':' :: '"' :: base64StdEncode es.Nonce ++ ['"']) ++
  [rbrace]

/-- Embedding of `EncryptedString.String` (crypto.go:119-123). -/
def EncryptedString.toStr (es : EncryptedString) : String :=
  String.mk (encodeEncryptedString es)

/-- Parse the body of a JSON string literal after the opening quote,
returning the decoded characters and the input remaining after the
closing quote.  Escape handling follows the Go decoder, except that a
lone surrogate escape is rejected (Go substitutes U+FFFD) — strictly
fewer inputs are accepted, none of which the encoder produces. -/
def parseJSONStringBody : List Char → Option (List Char × List Char)
  | [] => none
  | c :: rest =>
    if c = '"' then some ([], rest)
    else if c = '\\' then
      match rest with
      | [] => none
      | e :: rest2 =>
        if e = '"' ∨ e = '\\' ∨ e = '/' then
          (parseJSONStringBody rest2).map (fun sr => (e :: sr.1, sr.2))
        else if e = 'b' then
          (parseJSONStringBody rest2).map (fun sr => (Char.ofNat 8 :: sr.1, sr.2))
        else if e = 'f' then
          (parseJSONStringBody rest2).map (fun sr => (Char.ofNat 12 :: sr.1, sr.2))
        else if e = 'n' then
          (parseJSONStringBody rest2).map (fun sr => (Char.ofNat 10 :: sr.1, sr.2))
        else if e = 'r' then
          (parseJSONStringBody rest2).map (fun sr => (Char.ofNat 13 :: sr.1, sr.2))
        else if e = 't' then
          (parseJSONStringBody rest2).map (fun sr => (Char.ofNat 9 :: sr.1, sr.2))
        else if e = 'u' then
          match rest2 with
          | h1 :: h2 :: h3 :: h4 :: rest3 =>
            match hexVal h1, hexVal h2, hexVal h3, hexVal h4 with
            | some v1, some v2, some v3, some v4 =>
              if ((v1 * 16 + v2) * 16 + v3) * 16 + v4 < 55296 ∨
                  57343 < ((v1 * 16 + v2) * 16 + v3) * 16 + v4 then
                (parseJSONStringBody rest3).map
                  (fun sr => (Char.ofNat (((v1 * 16 + v2) * 16 + v3) * 16 + v4) :: sr.1, sr.2))
              else none
            | _, _, _, _ => none
          | _ => none
        else none
    else if c.toNat < 32 then none
    else (parseJSONStringBody rest).map (fun sr => (c :: sr.1, sr.2))

/-- Parse a JSON string literal (expects the opening quote). -/
def parseJSONString : List Char → Option (String × List Char)
  | [] => none
  | c :: rest =>
    if c = '"' then
      (parseJSONStringBody rest).map (fun sr => (String.mk sr.1, sr.2))
    else none

/-- Parse one `"key":"value"` pair. -/
def parsePair (l : List Char) : Option ((String × String) × List Char) :=
  match parseJSONString l with
  | none => none
  | some (k, rest) =>
    match rest with
    | [] => none
    | c :: rest2 =>
      if c = ':' then
        match parseJSONString rest2 with
        | none => none
        | some (v, rest3) => some ((k, v), rest3)
      else none


theorem parseJSONStringBody_length : ∀ (n : Nat) (l : List Char), l.length ≤ n →
    ∀ s rem, parseJSONStringBody l = some (s, rem) → rem.length < l.length := by
  intro n
  induction n with
  | zero =>
    intro l hl s rem h
    cases l with
    | nil => simp [parseJSONStringBody] at h
    | cons c rest => simp at hl
  | succ m ih =>
    intro l hl s rem h
    cases l with
    | nil => simp [parseJSONStringBody] at h
    | cons c rest =>
      rw [parseJSONStringBody.eq_def] at h
      simp only [List.length_cons] at hl ⊢
      dsimp only at h
      by_cases h1 : c = '"'
      · rw [if_pos h1] at h
        simp only [Option.some.injEq, Prod.mk.injEq] at h
        obtain ⟨rfl, rfl⟩ := h
        omega
      rw [if_neg h1] at h
      by_cases h2 : c = '\\'
      · rw [if_pos h2] at h
        cases rest with
        | nil => exact Option.noConfusion h
        | cons e rest2 =>
          dsimp only at h
          simp only [List.length_cons] at hl ⊢
          by_cases h3 : e = '"' ∨ e = '\\' ∨ e = '/'
          · rw [if_pos h3] at h
            obtain ⟨⟨s', rem'⟩, hsub, heq⟩ := Option.map_eq_some'.mp h
            simp only [Prod.mk.injEq] at heq
            obtain ⟨rfl, rfl⟩ := heq
            have hlt := ih _ (by omega) _ _ hsub
            omega
          rw [if_neg h3] at h
          by_cases h4 : e = 'b'
          · rw [if_pos h4] at h
            obtain ⟨⟨s', rem'⟩, hsub, heq⟩ := Option.map_eq_some'.mp h
            simp only [Prod.mk.injEq] at heq
            obtain ⟨rfl, rfl⟩ := heq
            have hlt := ih _ (by omega) _ _ hsub
            omega
          rw [if_neg h4] at h
          by_cases h5 : e = 'f'
          · rw [if_pos h5] at h
            obtain ⟨⟨s', rem'⟩, hsub, heq⟩ := Option.map_eq_some'.mp h
            simp only [Prod.mk.injEq] at heq
            obtain ⟨rfl, rfl⟩ := heq
            have hlt := ih _ (by omega) _ _ hsub
            omega
          rw [if_neg h5] at h
          by_cases h6 : e = 'n'
          · rw [if_pos h6] at h
            obtain ⟨⟨s', rem'⟩, hsub, heq⟩ := Option.map_eq_some'.mp h
            simp only [Prod.mk.injEq] at heq
            obtain ⟨rfl, rfl⟩ := heq
            have hlt := ih _ (by omega) _ _ hsub
            omega
          rw [if_neg h6] at h
          by_cases h7 : e = 'r'
          · rw [if_pos h7] at h
            obtain ⟨⟨s', rem'⟩, hsub, heq⟩ := Option.map_eq_some'.mp h
            simp only [Prod.mk.injEq] at heq
            obtain ⟨rfl, rfl⟩ := heq
            have hlt := ih _ (by omega) _ _ hsub
            omega
          rw [if_neg h7] at h
          by_cases h8 : e = 't'
          · rw [if_pos h8] at h
            obtain ⟨⟨s', rem'⟩, hsub, heq⟩ := Option.map_eq_some'.mp h
            simp only [Prod.mk.injEq] at heq
            obtain ⟨rfl, rfl⟩ := heq
            have hlt := ih _ (by omega) _ _ hsub
            omega
          rw [if_neg h8] at h
          by_cases h9 : e = 'u'
          · rw [if_pos h9] at h
            cases rest2 with
            | nil => exact Option.noConfusion h
            | cons a1 r1 =>
              cases r1 with
              | nil => exact Option.noConfusion h
              | cons a2 r2 =>
                cases r2 with
                | nil => exact Option.noConfusion h
                | cons a3 r3 =>
                  cases r3 with
                  | nil => exact Option.noConfusion h
                  | cons a4 rest3 =>
                    dsimp only at h
                    simp only [List.length_cons] at hl ⊢
                    rcases hv1 : hexVal a1 with _ | v1 <;> rw [hv1] at h <;>
                      [exact Option.noConfusion h; skip]
                    rcases hv2 : hexVal a2 with _ | v2 <;> rw [hv2] at h <;>
                      [exact Option.noConfusion h; skip]
                    rcases hv3 : hexVal a3 with _ | v3 <;> rw [hv3] at h <;>
                      [exact Option.noConfusion h; skip]
                    rcases hv4 : hexVal a4 with _ | v4 <;> rw [hv4] at h <;>
                      [exact Option.noConfusion h; skip]
                    dsimp only at h
                    by_cases h10 : ((v1 * 16 + v2) * 16 + v3) * 16 + v4 < 55296 ∨
                        57343 < ((v1 * 16 + v2) * 16 + v3) * 16 + v4
                    · rw [if_pos h10] at h
                      obtain ⟨⟨s', rem'⟩, hsub, heq⟩ := Option.map_eq_some'.mp h
                      simp only [Prod.mk.injEq] at heq
                      obtain ⟨rfl, rfl⟩ := heq
                      have hlt := ih _ (by omega) _ _ hsub
                      omega
                    · rw [if_neg h10] at h
                      exact Option.noConfusion h
          rw [if_neg h9] at h
          exact Option.noConfusion h
      rw [if_neg h2] at h
      by_cases h11 : c.toNat < 32
      · rw [if_pos h11] at h
        exact Option.noConfusion h
      rw [if_neg h11] at h
      obtain ⟨⟨s', rem'⟩, hsub, heq⟩ := Option.map_eq_some'.mp h
      simp only [Prod.mk.injEq] at heq
      obtain ⟨rfl, rfl⟩ := heq
      have hlt := ih _ (by omega) _ _ hsub
      omega

theorem parseJSONString_length (l : List Char) (v : String) (rem : List Char)
    (h : parseJSONString l = some (v, rem)) : rem.length < l.length := by
  cases l with
  | nil => simp [parseJSONString] at h
  | cons c rest =>
    rw [parseJSONString.eq_def] at h
    dsimp only at h
    by_cases hq : c = '"'
    · rw [if_pos hq] at h
      obtain ⟨⟨s', rem'⟩, hsub, heq⟩ := Option.map_eq_some'.mp h
      simp only [Prod.mk.injEq] at heq
      obtain ⟨rfl, rfl⟩ := heq
      have := parseJSONStringBody_length rest.length rest (le_refl _) _ _ hsub
      simp only [List.length_cons]
      omega
    · rw [if_neg hq] at h
      exact Option.noConfusion h

theorem parsePair_length (l : List Char) (kv : String × String) (rem : List Char)
    (h : parsePair l = some (kv, rem)) : rem.length < l.length := by
  unfold parsePair at h
  cases hk : parseJSONString l with
  | none => rw [hk] at h; exact Option.noConfusion h
  | some kr =>
    rw [hk] at h
    obtain ⟨k, rest⟩ := kr
    dsimp only at h
    cases rest with
    | nil => exact Option.noConfusion h
    | cons c rest2 =>
      dsimp only at h
      by_cases hc : c = ':'
      · rw [if_pos hc] at h
        cases hv : parseJSONString rest2 with
        | none => rw [hv] at h; exact Option.noConfusion h
        | some vr =>
          rw [hv] at h
          obtain ⟨v, rest3⟩ := vr
          dsimp only at h
          simp only [Option.some.injEq, Prod.mk.injEq] at h
          obtain ⟨-, rfl⟩ := h
          have l1 := parseJSONString_length l _ _ hk
          have l2 := parseJSONString_length rest2 _ _ hv
          simp only [List.length_cons] at l1
          omega
      · rw [if_neg hc] at h
        exact Option.noConfusion h

/-- Parse the members of a JSON object after the opening brace: one or
more `"key":"value"` pairs separated by commas, then the closing brace,
then end of input. -/
def parsePairsLoop (l : List Char) : Option (List (String × String)) :=
  match hp : parsePair l with
  | none => none
  | some (kv, rest) =>
    match rest with
    | [] => none
    | c :: rest2 =>
      if c = ',' then
        match parsePairsLoop rest2 with
        | none => none
        | some kvs => some (kv :: kvs)
      else if c = rbrace then
        if rest2.isEmpty then some [kv] else none
      else none
termination_by l.length
decreasing_by
  have := parsePair_length l _ _ hp
  simp only [List.length_cons] at this
  omega

/-- Field assignment of Go `json.Unmarshal` for one parsed
`"key":"value"` member: known keys set the corresponding struct field
(a later duplicate wins), the byte-slice fields decode from padded
standard base64 (failure aborts the unmarshal), unknown keys are
ignored. -/
def applyField (es : EncryptedString) (kv : String × String) : Option EncryptedString :=
  if kv.1 = "key_id" then some { es with KeyID := kv.2 }
  else if kv.1 = "alg" then some { es with Algorithm := kv.2 }
  else if kv.1 = "data" then
    match base64StdDecode kv.2.data with
    | none => none
    | some bytes => some { es with Data := bytes }
  else if kv.1 = "nonce" then
    match base64StdDecode kv.2.data with
    | none => none
    | some bytes => some { es with Nonce := bytes }
  else some es

/-- Go `json.Unmarshal` of the parsed members into the zero
`EncryptedString` value. -/
def buildEncryptedString (pairs : List (String × String)) : Option EncryptedString :=
  pairs.foldlM applyField { KeyID := "", Algorithm := "", Data := [], Nonce := [] }

/-- Embedding of `ParseEncryptedString` (crypto.go:101-117): require a
leading brace, JSON-decode, require `IsValid`; `none` otherwise.  The
JSON decoder is modelled for objects whose member values are string
literals — the only shape the encoder produces — and rejects everything
else, so it accepts strictly fewer strings than Go's but agrees on every
encoder output and never yields an invalid envelope. -/
def ParseEncryptedString (str : String) : Option EncryptedString :=
  match str.data with
  | [] => none
  | c :: rest =>
    if c = lbrace then
      match parsePairsLoop rest with
      | none => none
      | some pairs =>
        match buildEncryptedString pairs with
        | none => none
        | some es => if es.IsValid then some es else none
    else none

/-- A character the JSON string parser consumes verbatim. -/
def plainChar (c : Char) : Prop := c ≠ '"' ∧ c ≠ '\\' ∧ ¬ c.toNat < 32

theorem base64StdDigitChar_spec : ∀ n ∈ List.range 64,
    base64StdDigit (base64StdDigitChar n) = some n ∧
    base64StdDigitChar n ≠ '"' ∧ base64StdDigitChar n ≠ '\\' ∧
    base64StdDigitChar n ≠ '=' ∧ ¬ (base64StdDigitChar n).toNat < 32 := by decide

theorem base64StdDigitChar_spec' (n : Nat) (h : n < 64) :
    base64StdDigit (base64StdDigitChar n) = some n ∧
    base64StdDigitChar n ≠ '"' ∧ base64StdDigitChar n ≠ '\\' ∧
    base64StdDigitChar n ≠ '=' ∧ ¬ (base64StdDigitChar n).toNat < 32 :=
  base64StdDigitChar_spec n (List.mem_range.mpr h)

theorem base64Std_roundtrip : ∀ (bs : List Nat), (∀ b ∈ bs, b < 256) →
    base64StdDecode (base64StdEncode bs) = some bs
  | [], _ => rfl
  | [b1], h => by
    have hb1 : b1 < 256 := h b1 (by simp)
    have s1 := base64StdDigitChar_spec' (b1 / 4) (by omega)
    have s2 := base64StdDigitChar_spec' (b1 % 4 * 16) (by omega)
    simp only [base64StdEncode, base64StdDecode, s1.1, s2.1, if_true, and_self, ite_true,
      Option.some.injEq, List.cons.injEq, and_true]
    omega
  | [b1, b2], h => by
    have hb1 : b1 < 256 := h b1 (by simp)
    have hb2 : b2 < 256 := h b2 (by simp)
    have s1 := base64StdDigitChar_spec' (b1 / 4) (by omega)
    have s2 := base64StdDigitChar_spec' (b1 % 4 * 16 + b2 / 16) (by omega)
    have s3 := base64StdDigitChar_spec' (b2 % 16 * 4) (by omega)
    simp only [base64StdEncode, base64StdDecode, s1.1, s2.1, s3.1, s3.2.2.2.1, if_false,
      ite_false, if_true, and_self, ite_true, Option.some.injEq, List.cons.injEq, and_true]
    omega
  | b1 :: b2 :: b3 :: b4 :: rest, h => by
    have hb1 : b1 < 256 := h b1 (by simp)
    have hb2 : b2 < 256 := h b2 (by simp)
    have hb3 : b3 < 256 := h b3 (by simp)
    have s1 := base64StdDigitChar_spec' (b1 / 4) (by omega)
    have s2 := base64StdDigitChar_spec' (b1 % 4 * 16 + b2 / 16) (by omega)
    have s3 := base64StdDigitChar_spec' (b2 % 16 * 4 + b3 / 64) (by omega)
    have s4 := base64StdDigitChar_spec' (b3 % 64) (by omega)
    have ih := base64Std_roundtrip (b4 :: rest) (fun b hb => h b (by simp at hb ⊢; tauto))
    simp only [base64StdEncode, base64StdDecode, s1.1, s2.1, s3.1, s4.1, ih,
      s3.2.2.2.1, s4.2.2.2.1, if_false, ite_false, if_true, and_self, ite_true,
      Option.some.injEq, List.cons.injEq, and_true, true_and]
    omega
  | [b1, b2, b3], h => by
    have hb1 : b1 < 256 := h b1 (by simp)
    have hb2 : b2 < 256 := h b2 (by simp)
    have hb3 : b3 < 256 := h b3 (by simp)
    have s1 := base64StdDigitChar_spec' (b1 / 4) (by omega)
    have s2 := base64StdDigitChar_spec' (b1 % 4 * 16 + b2 / 16) (by omega)
    have s3 := base64StdDigitChar_spec' (b2 % 16 * 4 + b3 / 64) (by omega)
    have s4 := base64StdDigitChar_spec' (b3 % 64) (by omega)
    simp only [base64StdEncode, base64StdDecode, s1.1, s2.1, s3.1, s4.1,
      s3.2.2.2.1, s4.2.2.2.1, if_false, ite_false, if_true, and_self, ite_true,
      Option.some.injEq, List.cons.injEq, and_true, true_and]
    omega

theorem base64StdEncode_plain : ∀ (bs : List Nat), (∀ b ∈ bs, b < 256) →
    ∀ c ∈ base64StdEncode bs, plainChar c
  | [], _ => by simp [base64StdEncode]
  | [b1], h => by
    have hb1 : b1 < 256 := h b1 (by simp)
    have s1 := base64StdDigitChar_spec' (b1 / 4) (by omega)
    have s2 := base64StdDigitChar_spec' (b1 % 4 * 16) (by omega)
    intro c hc
    simp only [base64StdEncode, List.mem_cons, List.mem_singleton, List.mem_nil_iff,
      or_false] at hc
    rcases hc with rfl | rfl | rfl | rfl
    · exact ⟨s1.2.1, s1.2.2.1, s1.2.2.2.2⟩
    · exact ⟨s2.2.1, s2.2.2.1, s2.2.2.2.2⟩
    · exact ⟨by decide, by decide, by decide⟩
    · exact ⟨by decide, by decide, by decide⟩
  | [b1, b2], h => by
    have hb1 : b1 < 256 := h b1 (by simp)
    have hb2 : b2 < 256 := h b2 (by simp)
    have s1 := base64StdDigitChar_spec' (b1 / 4) (by omega)
    have s2 := base64StdDigitChar_spec' (b1 % 4 * 16 + b2 / 16) (by omega)
    have s3 := base64StdDigitChar_spec' (b2 % 16 * 4) (by omega)
    intro c hc
    simp only [base64StdEncode, List.mem_cons, List.mem_singleton, List.mem_nil_iff,
      or_false] at hc
    rcases hc with rfl | rfl | rfl | rfl
    · exact ⟨s1.2.1, s1.2.2.1, s1.2.2.2.2⟩
    · exact ⟨s2.2.1, s2.2.2.1, s2.2.2.2.2⟩
    · exact ⟨s3.2.1, s3.2.2.1, s3.2.2.2.2⟩
    · exact ⟨by decide, by decide, by decide⟩
  | b1 :: b2 :: b3 :: rest, h => by
    have hb1 : b1 < 256 := h b1 (by simp)
    have hb2 : b2 < 256 := h b2 (by simp)
    have hb3 : b3 < 256 := h b3 (by simp)
    have s1 := base64StdDigitChar_spec' (b1 / 4) (by omega)
    have s2 := base64StdDigitChar_spec' (b1 % 4 * 16 + b2 / 16) (by omega)
    have s3 := base64StdDigitChar_spec' (b2 % 16 * 4 + b3 / 64) (by omega)
    have s4 := base64StdDigitChar_spec' (b3 % 64) (by omega)
    have ih := base64StdEncode_plain rest (fun b hb => h b (by simp [hb]))
    intro c hc
    simp only [base64StdEncode, List.mem_cons] at hc
    rcases hc with rfl | rfl | rfl | rfl | hc
    · exact ⟨s1.2.1, s1.2.2.1, s1.2.2.2.2⟩
    · exact ⟨s2.2.1, s2.2.2.1, s2.2.2.2.2⟩
    · exact ⟨s3.2.1, s3.2.2.1, s3.2.2.2.2⟩
    · exact ⟨s4.2.1, s4.2.2.1, s4.2.2.2.2⟩
    · exact ih c hc

theorem parseJSONStringBody_plain : ∀ (l rest : List Char), (∀ c ∈ l, plainChar c) →
    parseJSONStringBody (l ++ '"' :: rest) = some (l, rest)
  | [], rest, _ => by
    rw [List.nil_append, parseJSONStringBody.eq_def]
    dsimp only
    rw [if_pos rfl]
  | c :: l, rest, h => by
    have hc := h c (by simp)
    have ih := parseJSONStringBody_plain l rest (fun c hc => h c (by simp [hc]))
    rw [List.cons_append, parseJSONStringBody.eq_def]
    dsimp only
    rw [if_neg hc.1, if_neg hc.2.1, if_neg hc.2.2, ih]
    rfl

theorem hexVal_hexDigitChar : ∀ n ∈ List.range 16, hexVal (hexDigitChar n) = some n := by
  decide

theorem parse_u00_escape (x : Nat) (hx : x < 32) (T : List Char) :
    parseJSONStringBody
      ('\\' :: 'u' :: '0' :: '0' :: hexDigitChar (x / 16) :: hexDigitChar (x % 16) :: T) =
      (parseJSONStringBody T).map (fun sr => (Char.ofNat x :: sr.1, sr.2)) := by
  have e0 : hexVal '0' = some 0 := by decide
  have e1 : hexVal (hexDigitChar (x / 16)) = some (x / 16) :=
    hexVal_hexDigitChar _ (List.mem_range.mpr (by omega))
  have e2 : hexVal (hexDigitChar (x % 16)) = some (x % 16) :=
    hexVal_hexDigitChar _ (List.mem_range.mpr (by omega))
  rw [parseJSONStringBody.eq_def]
  dsimp only
  rw [if_neg (by decide), if_pos (by decide), if_neg (by decide), if_neg (by decide),
    if_neg (by decide), if_neg (by decide), if_neg (by decide), if_neg (by decide),
    if_pos (by decide)]
  rw [e0, e1, e2]
  dsimp only
  rw [show ((0 * 16 + 0) * 16 + x / 16) * 16 + x % 16 = x from by omega]
  rw [if_pos (Or.inl (by omega : x < 55296))]

theorem parseJSONStringBody_escape : ∀ (l rest : List Char),
    parseJSONStringBody (l.flatMap jsonEscapeChar ++ '"' :: rest) = some (l, rest)
  | [], rest => by
    rw [List.nil_bind, List.nil_append, parseJSONStringBody.eq_def]
    dsimp only
    rw [if_pos rfl]
  | c :: l, rest => by
    have ih := parseJSONStringBody_escape l rest
    rw [List.cons_bind, List.append_assoc]
    by_cases h1 : c = '"'
    · subst h1
      rw [show jsonEscapeChar '"' = ['\\', '"'] from by decide]
      simp only [List.cons_append, List.nil_append]
      rw [parseJSONStringBody.eq_def]
      dsimp only
      rw [if_neg (by decide), if_pos (by decide), if_pos (by decide), ih]
      rfl
    by_cases h2 : c = '\\'
    · subst h2
      rw [show jsonEscapeChar '\\' = ['\\', '\\'] from by decide]
      simp only [List.cons_append, List.nil_append]
      rw [parseJSONStringBody.eq_def]
      dsimp only
      rw [if_neg (by decide), if_pos (by decide), if_pos (by decide), ih]
      rfl
    by_cases h3 : c = '\n'
    · subst h3
      rw [show jsonEscapeChar '\n' = ['\\', 'n'] from by decide]
      simp only [List.cons_append, List.nil_append]
      rw [parseJSONStringBody.eq_def]
      dsimp only
      rw [if_neg (by decide), if_pos (by decide), if_neg (by decide), if_neg (by decide),
        if_neg (by decide), if_pos (by decide), ih]
      simp only [Option.map_some']
    by_cases h4 : c = '\r'
    · subst h4
      rw [show jsonEscapeChar '\r' = ['\\', 'r'] from by decide]
      simp only [List.cons_append, List.nil_append]
      rw [parseJSONStringBody.eq_def]
      dsimp only
      rw [if_neg (by decide), if_pos (by decide), if_neg (by decide), if_neg (by decide),
        if_neg (by decide), if_neg (by decide), if_pos (by decide), ih]
      simp only [Option.map_some']
    by_cases h5 : c = '\t'
    · subst h5
      rw [show jsonEscapeChar '\t' = ['\\', 't'] from by decide]
      simp only [List.cons_append, List.nil_append]
      rw [parseJSONStringBody.eq_def]
      dsimp only
      rw [if_neg (by decide), if_pos (by decide), if_neg (by decide), if_neg (by decide),
        if_neg (by decide), if_neg (by decide), if_neg (by decide), if_pos (by decide), ih]
      simp only [Option.map_some']
    by_cases h6 : c.toNat < 32
    · rw [show jsonEscapeChar c = ['\\', 'u', '0', '0', hexDigitChar (c.toNat / 16),
        hexDigitChar (c.toNat % 16)] from by
          unfold jsonEscapeChar
          rw [if_neg h1, if_neg h2, if_neg h3, if_neg h4, if_neg h5, if_pos h6]]
      simp only [List.cons_append, List.nil_append]
      rw [parse_u00_escape c.toNat h6, ih]
      simp only [Option.map_some']
      rw [Char.ofNat_toNat]
    by_cases h7 : c = '<'
    · subst h7
      rw [show jsonEscapeChar '<' = ['\\', 'u', '0', '0', '3', 'c'] from by decide]
      simp only [List.cons_append, List.nil_append]
      rw [parseJSONStringBody.eq_def]
      dsimp only
      rw [if_neg (by decide), if_pos (by decide), if_neg (by decide), if_neg (by decide),
        if_neg (by decide), if_neg (by decide), if_neg (by decide), if_neg (by decide),
        if_pos (by decide)]
      rw [show hexVal '0' = some 0 from by decide, show hexVal '3' = some 3 from by decide,
        show hexVal 'c' = some 12 from by decide]
      dsimp only
      rw [if_pos (by omega), ih]
      simp only [Option.map_some']
    by_cases h8 : c = '>'
    · subst h8
      rw [show jsonEscapeChar '>' = ['\\', 'u', '0', '0', '3', 'e'] from by decide]
      simp only [List.cons_append, List.nil_append]
      rw [parseJSONStringBody.eq_def]
      dsimp only
      rw [if_neg (by decide), if_pos (by decide), if_neg (by decide), if_neg (by decide),
        if_neg (by decide), if_neg (by decide), if_neg (by decide), if_neg (by decide),
        if_pos (by decide)]
      rw [show hexVal '0' = some 0 from by decide, show hexVal '3' = some 3 from by decide,
        show hexVal 'e' = some 14 from by decide]
      dsimp only
      rw [if_pos (by omega), ih]
      simp only [Option.map_some']
    by_cases h9 : c = '&'
    · subst h9
      rw [show jsonEscapeChar '&' = ['\\', 'u', '0', '0', '2', '6'] from by decide]
      simp only [List.cons_append, List.nil_append]
      rw [parseJSONStringBody.eq_def]
      dsimp only
      rw [if_neg (by decide), if_pos (by decide), if_neg (by decide), if_neg (by decide),
        if_neg (by decide), if_neg (by decide), if_neg (by decide), if_neg (by decide),
        if_pos (by decide)]
      rw [show hexVal '0' = some 0 from by decide, show hexVal '2' = some 2 from by decide,
        show hexVal '6' = some 6 from by decide]
      dsimp only
      rw [if_pos (by omega), ih]
      simp only [Option.map_some']
    by_cases h10 : c.toNat = 8232
    · rw [show jsonEscapeChar c = ['\\', 'u', '2', '0', '2', '8'] from by
          unfold jsonEscapeChar
          rw [if_neg h1, if_neg h2, if_neg h3, if_neg h4, if_neg h5, if_neg h6, if_neg h7,
            if_neg h8, if_neg h9, if_pos h10]]
      simp only [List.cons_append, List.nil_append]
      rw [parseJSONStringBody.eq_def]
      dsimp only
      rw [if_neg (by decide), if_pos (by decide), if_neg (by decide), if_neg (by decide),
        if_neg (by decide), if_neg (by decide), if_neg (by decide), if_neg (by decide),
        if_pos (by decide)]
      rw [show hexVal '2' = some 2 from by decide, show hexVal '0' = some 0 from by decide,
        show hexVal '8' = some 8 from by decide]
      dsimp only
      rw [if_pos (by omega), ih]
      simp only [Option.map_some']
      rw [show Char.ofNat (((2 * 16 + 0) * 16 + 2) * 16 + 8) = c from by
        rw [show ((2 * 16 + 0) * 16 + 2) * 16 + 8 = 8232 from by norm_num, ← h10,
          Char.ofNat_toNat]]
    by_cases h11 : c.toNat = 8233
    · rw [show jsonEscapeChar c = ['\\', 'u', '2', '0', '2', '9'] from by
          unfold jsonEscapeChar
          rw [if_neg h1, if_neg h2, if_neg h3, if_neg h4, if_neg h5, if_neg h6, if_neg h7,
            if_neg h8, if_neg h9, if_neg h10, if_pos h11]]
      simp only [List.cons_append, List.nil_append]
      rw [parseJSONStringBody.eq_def]
      dsimp only
      rw [if_neg (by decide), if_pos (by decide), if_neg (by decide), if_neg (by decide),
        if_neg (by decide), if_neg (by decide), if_neg (by decide), if_neg (by decide),
        if_pos (by decide)]
      rw [show hexVal '2' = some 2 from by decide, show hexVal '0' = some 0 from by decide,
        show hexVal '9' = some 9 from by decide]
      dsimp only
      rw [if_pos (by omega), ih]
      simp only [Option.map_some']
      rw [show Char.ofNat (((2 * 16 + 0) * 16 + 2) * 16 + 9) = c from by
        rw [show ((2 * 16 + 0) * 16 + 2) * 16 + 9 = 8233 from by norm_num, ← h11,
          Char.ofNat_toNat]]
    · rw [show jsonEscapeChar c = [c] from by
          unfold jsonEscapeChar
          rw [if_neg h1, if_neg h2, if_neg h3, if_neg h4, if_neg h5, if_neg h6, if_neg h7,
            if_neg h8, if_neg h9, if_neg h10, if_neg h11]]
      simp only [List.singleton_append]
      rw [parseJSONStringBody.eq_def]
      dsimp only
      rw [if_neg h1, if_neg h2, if_neg h6, ih]
      rfl

theorem parseJSONString_quote (s : String) (rest : List Char) :
    parseJSONString (jsonQuoteString s ++ rest) = some (s, rest) := by
  unfold jsonQuoteString
  simp only [List.cons_append, List.append_assoc, List.singleton_append, List.nil_append]
  rw [parseJSONString.eq_def]
  dsimp only
  rw [if_pos rfl, parseJSONStringBody_escape s.data rest]
  rfl

theorem parseJSONString_plainQuoted (l : List Char) (rest : List Char)
    (h : ∀ c ∈ l, plainChar c) :
    parseJSONString ('"' :: (l ++ '"' :: rest)) = some (String.mk l, rest) := by
  rw [parseJSONString.eq_def]
  dsimp only
  rw [if_pos rfl, parseJSONStringBody_plain l rest h]
  rfl

theorem parsePair_chunks (kchunk vchunk : List Char) (k v : String) (rest : List Char)
    (hk : ∀ r, parseJSONString (kchunk ++ r) = some (k, r))
    (hv : ∀ r, parseJSONString (vchunk ++ r) = some (v, r)) :
    parsePair (kchunk ++ (':' :: (vchunk ++ rest))) = some ((k, v), rest) := by
  unfold parsePair
  rw [hk (':' :: (vchunk ++ rest))]
  dsimp only
  rw [if_pos rfl, hv rest]

theorem parsePairsLoop_step (kchunk vchunk : List Char) (k v : String) (rest : List Char)
    (hk : ∀ r, parseJSONString (kchunk ++ r) = some (k, r))
    (hv : ∀ r, parseJSONString (vchunk ++ r) = some (v, r)) :
    parsePairsLoop (kchunk ++ (':' :: (vchunk ++ (',' :: rest)))) =
      (match parsePairsLoop rest with
       | none => none
       | some kvs => some ((k, v) :: kvs)) := by
  have hp : parsePair (kchunk ++ (':' :: (vchunk ++ (',' :: rest)))) =
      some ((k, v), ',' :: rest) :=
    parsePair_chunks kchunk vchunk k v (',' :: rest) hk hv
  rw [parsePairsLoop.eq_def]
  split
  · next heq => rw [hp] at heq; exact Option.noConfusion heq
  · next kv' rest' heq =>
      rw [hp] at heq
      simp only [Option.some.injEq, Prod.mk.injEq] at heq
      obtain ⟨rfl, rfl⟩ := heq.symm
      dsimp only
      rw [if_pos rfl]

theorem parsePairsLoop_final (kchunk vchunk : List Char) (k v : String)
    (hk : ∀ r, parseJSONString (kchunk ++ r) = some (k, r))
    (hv : ∀ r, parseJSONString (vchunk ++ r) = some (v, r)) :
    parsePairsLoop (kchunk ++ (':' :: (vchunk ++ [rbrace]))) = some [(k, v)] := by
  have hp : parsePair (kchunk ++ (':' :: (vchunk ++ [rbrace]))) = some ((k, v), [rbrace]) :=
    parsePair_chunks kchunk vchunk k v [rbrace] hk hv
  rw [parsePairsLoop.eq_def]
  split
  · next heq => rw [hp] at heq; exact Option.noConfusion heq
  · next kv' rest' heq =>
      rw [hp] at heq
      simp only [Option.some.injEq, Prod.mk.injEq] at heq
      obtain ⟨rfl, rfl⟩ := heq.symm
      dsimp only
      rw [if_neg (by decide), if_pos rfl]
      rfl

theorem parsePairsLoop_step_b64 (kchunk : List Char) (k : String) (enc rest : List Char)
    (hk : ∀ r, parseJSONString (kchunk ++ r) = some (k, r))
    (hplain : ∀ c ∈ enc, plainChar c) :
    parsePairsLoop (kchunk ++ (':' :: ('"' :: (enc ++ '"' :: ',' :: rest)))) =
      (match parsePairsLoop rest with
       | none => none
       | some kvs => some ((k, String.mk enc) :: kvs)) := by
  have hv : ∀ r, parseJSONString (('"' :: (enc ++ ['"'])) ++ r) = some (String.mk enc, r) := by
    intro r
    simp only [List.cons_append, List.append_assoc, List.singleton_append]
    exact parseJSONString_plainQuoted enc r hplain
  have hstep := parsePairsLoop_step kchunk ('"' :: (enc ++ ['"'])) k (String.mk enc) rest hk hv
  simpa only [List.cons_append, List.append_assoc, List.singleton_append] using hstep

theorem parsePairsLoop_final_b64 (kchunk : List Char) (k : String) (enc : List Char)
    (hk : ∀ r, parseJSONString (kchunk ++ r) = some (k, r))
    (hplain : ∀ c ∈ enc, plainChar c) :
    parsePairsLoop (kchunk ++ (':' :: ('"' :: (enc ++ '"' :: [rbrace])))) =
      some [(k, String.mk enc)] := by
  have hv : ∀ r, parseJSONString (('"' :: (enc ++ ['"'])) ++ r) = some (String.mk enc, r) := by
    intro r
    simp only [List.cons_append, List.append_assoc, List.singleton_append]
    exact parseJSONString_plainQuoted enc r hplain
  have hfin := parsePairsLoop_final kchunk ('"' :: (enc ++ ['"'])) k (String.mk enc) hk hv
  simpa only [List.cons_append, List.append_assoc, List.singleton_append] using hfin

theorem buildEncryptedString_fields (k a : String) (d n : List Nat)
    (hd : ∀ b ∈ d, b < 256) (hn : ∀ b ∈ n, b < 256) :
    buildEncryptedString [("key_id", k), ("alg", a),
      ("data", String.mk (base64StdEncode d)), ("nonce", String.mk (base64StdEncode n))] =
      some ⟨k, a, d, n⟩ := by
  unfold buildEncryptedString
  simp only [List.foldlM_cons, List.foldlM_nil, applyField,
    eq_false (show ¬("alg" = "key_id") from by decide),
    eq_false (show ¬("data" = "key_id") from by decide),
    eq_false (show ¬("data" = "alg") from by decide),
    eq_false (show ¬("nonce" = "key_id") from by decide),
    eq_false (show ¬("nonce" = "alg") from by decide),
    eq_false (show ¬("nonce" = "data") from by decide),
    eq_self_iff_true, if_true, ite_true, if_false, ite_false, Option.some_bind]
  rw [base64Std_roundtrip d hd, base64Std_roundtrip n hn]
  rfl

set_option maxHeartbeats 1000000 in
/-- C8: serializing a valid envelope and parsing the result yields the
envelope back; a string without the leading brace parses to `none`; and
the parser never returns an envelope that fails the validity invariant
(it returns `none` instead of throwing on all other input by
construction, being a total function). -/
theorem encryptedString_serialization (es : EncryptedString) :
    (es.IsValid = true → (∀ b ∈ es.Data, b < 256) → (∀ b ∈ es.Nonce, b < 256) →
      ParseEncryptedString es.toStr = some es) ∧
    (∀ s : String, s.data.head? ≠ some lbrace → ParseEncryptedString s = none) ∧
    (∀ (s : String) (es' : EncryptedString), ParseEncryptedString s = some es' →
      es'.IsValid = true) := by
  refine ⟨?_, ?_, ?_⟩
  · intro hval hd hn
    have hbits := hval
    simp only [EncryptedString.IsValid, Bool.and_eq_true, bne_iff_ne, ne_eq,
      Bool.not_eq_true', List.isEmpty_eq_false, beq_iff_eq] at hbits
    obtain ⟨⟨⟨hkid, hdata⟩, hnonce⟩, halg⟩ := hbits
    have hne : es.Nonce.isEmpty = false := by
      simp [List.isEmpty_eq_false, hnonce]
    unfold EncryptedString.toStr ParseEncryptedString encodeEncryptedString
    rw [hne]
    dsimp only
    simp only [Bool.false_eq_true, eq_self_iff_true, if_true, ite_true, if_false, ite_false,
      List.cons_append, List.append_assoc, List.singleton_append, List.nil_append]
    rw [parsePairsLoop_step (jsonQuoteString "key_id") (jsonQuoteString es.KeyID)
        "key_id" es.KeyID _ (parseJSONString_quote "key_id") (parseJSONString_quote es.KeyID),
      parsePairsLoop_step (jsonQuoteString "alg") (jsonQuoteString es.Algorithm)
        "alg" es.Algorithm _ (parseJSONString_quote "alg") (parseJSONString_quote es.Algorithm),
      parsePairsLoop_step_b64 (jsonQuoteString "data") "data" (base64StdEncode es.Data) _
        (parseJSONString_quote "data") (base64StdEncode_plain es.Data hd),
      parsePairsLoop_final_b64 (jsonQuoteString "nonce") "nonce" (base64StdEncode es.Nonce)
        (parseJSONString_quote "nonce") (base64StdEncode_plain es.Nonce hn)]
    dsimp only
    rw [buildEncryptedString_fields es.KeyID es.Algorithm es.Data es.Nonce hd hn]
    dsimp only
    rw [if_pos hval]
  · intro s hs
    unfold ParseEncryptedString
    rcases hd : s.data with _ | ⟨c, rest⟩
    · rfl
    · rw [hd] at hs
      simp only [List.head?_cons, ne_eq, Option.some.injEq] at hs
      dsimp only
      rw [if_neg hs]
  · intro s es' h
    unfold ParseEncryptedString at h
    rcases hd : s.data with _ | ⟨c, rest⟩ <;> rw [hd] at h
    · exact Option.noConfusion h
    · dsimp only at h
      by_cases hc : c = lbrace
      · rw [if_pos hc] at h
        rcases hp : parsePairsLoop rest with _ | pairs <;> rw [hp] at h
        · exact Option.noConfusion h
        · dsimp only at h
          rcases hb : buildEncryptedString pairs with _ | es2 <;> rw [hb] at h
          · exact Option.noConfusion h
          · dsimp only at h
            by_cases hv : es2.IsValid = true
            · rw [if_pos hv] at h
              obtain rfl : es2 = es' := Option.some.injEq es2 es' ▸ (by
                simpa using h)
              exact hv
            · rw [if_neg hv] at h
              exact Option.noConfusion h
      · rw [if_neg hc] at h
        exact Option.noConfusion h

/-- C8 witness: a concrete valid envelope roundtrips through its string
form. -/
theorem encryptedString_serialization_witness :
    ParseEncryptedString (EncryptedString.toStr ⟨"k", "aes-gcm-hkdf", [1, 2], [3]⟩) =
      some ⟨"k", "aes-gcm-hkdf", [1, 2], [3]⟩ :=
  (encryptedString_serialization ⟨"k", "aes-gcm-hkdf", [1, 2], [3]⟩).1
    (by decide) (by decide) (by decide)
